import Mathlib

/-!
Verification of the git-whence core: the blame-porcelain parser
(src/git_blame_porcelain.rs) and the terminal navigation engine
(src/terminal.rs), shallowly embedded over `List Char`.

Conventions of the embedding:
* Rust string slices are `List Char` (`Str` below); machine integers are `Nat`
  with explicit bounds or wrapping where the source can overflow.
* nom sub-parsers return `PRes`: a value plus the remaining input, or an error
  carrying the input at the failing parser (what a nom error holds).
* Fallible Rust computations that can also abort the process (unwrap, expect,
  the explicit panic in `parse_commit_info`) return `POut`/`BOut`/`HRes` with a
  dedicated `panic` outcome.
* `Rc<CommitInfo>` sharing is embedded as an arena: the parse returns the list
  of `CommitInfo`s it allocated, in creation order, and each hunk stores the
  index of its allocation; two hunks share one `Rc` allocation in the source
  iff they carry the same index here.
* Loops are written with an explicit fuel argument (each iteration consumes at
  least one character of input, so `length + 1` fuel never runs out; the
  out-of-fuel branches are provably unreachable from the wrappers).
-/

abbrev Str := List Char

/-- Embeds `is_line_ending` from git_blame_porcelain.rs. -/
def is_line_ending (c : Char) : Bool := c == '\n' || c == '\r'

/-- Embeds `is_digit` (Rust `AsChar::is_dec_digit`): ASCII 0-9. -/
def is_digit (c : Char) : Bool := '0' ≤ c && c ≤ '9'

/-- Result of a nom sub-parser: a value and the rest of the input, or an error
carrying the input at the point of failure. -/
inductive PRes (α : Type) where
  | ok (a : α) (rest : Str)
  | err (rem : Str)
deriving Repr, DecidableEq

/-- Embeds nom `tag t`: match the literal `t` at the start of the input. -/
def tagP (t : Str) (s : Str) : PRes Str :=
  if s.take t.length = t then .ok t (s.drop t.length) else .err s

/-- Embeds nom `take_till p`: longest prefix of characters not satisfying `p`;
never fails. -/
def takeTill (p : Char → Bool) (s : Str) : Str × Str :=
  (s.takeWhile (fun c => !p c), s.dropWhile (fun c => !p c))

/-- Embeds nom `take_till1 p`: like `take_till` but errors on an empty match. -/
def takeTill1 (p : Char → Bool) (s : Str) : PRes Str :=
  if (takeTill p s).1 = [] then .err s else .ok (takeTill p s).1 (takeTill p s).2

/-- Embeds nom `take_while1 p`: longest nonempty prefix satisfying `p`. -/
def takeWhile1 (p : Char → Bool) (s : Str) : PRes Str :=
  let pre := s.takeWhile p
  if pre = [] then .err s else .ok pre (s.dropWhile p)

/-- Splits the input at the first occurrence of the substring `t` (which is
left at the head of the second component); `none` when `t` does not occur. -/
def splitUntil (t : Str) : Str → Option (Str × Str)
  | [] => none
  | c :: cs =>
    if t.isPrefixOf (c :: cs) then some ([], c :: cs)
    else
      match splitUntil t cs with
      | some (pre, rest) => some (c :: pre, rest)
      | none => none

/-- Embeds nom `take_until1 t`: the characters before the first occurrence of
`t` (at least one; `t` itself is not consumed). -/
def takeUntil1 (t : Str) (s : Str) : PRes Str :=
  match splitUntil t s with
  | some (pre, rest) => if pre = [] then .err s else .ok pre rest
  | none => .err s

/-- Embeds nom `character::complete::line_ending`: "\n" or "\r\n" (a lone
carriage return is an error). -/
def lineEnding (s : Str) : PRes Str :=
  match s with
  | '\n' :: rest => .ok ['\n'] rest
  | '\r' :: '\n' :: rest => .ok ['\r', '\n'] rest
  | _ => .err s

/-- Header line data from `parse_header`.  `line_no` and `group_size` are Rust
`i32`s parsed from decimal digit runs, hence naturals; values past
`i32::MAX` make the unwraps in the source abort. -/
structure Header where
  commit : Str
  line_no : Nat
  group_size : Nat
deriving Repr, DecidableEq

/-- Embeds `CommitInfo`; `commit_time` is seconds since the Unix epoch, which
is what `make_time` encodes into a `SystemTime`. -/
structure CommitInfo where
  author : Str
  commit_time : Nat
  path : Option Str
deriving Repr, DecidableEq

/-- Embeds `BlameLine`.  The source stores `info : Rc<CommitInfo>`; the shared
allocation is embedded as `infoIdx`, the index of that `CommitInfo` in the
arena of allocations of one parse (same index = same `Rc` allocation). -/
structure BlameLine where
  commit : Str
  line_num : Nat
  code : List Str
  infoIdx : Nat
deriving Repr, DecidableEq

/-- Value of a decimal digit run. -/
def parseNatDigits (ds : Str) : Nat := ds.foldl (fun n c => n * 10 + (c.toNat - 48)) 0

/-- Rust `str::parse::<i32>` applied to a nonempty run of decimal digits: it
fails exactly on overflow past `i32::MAX`. -/
def i32ofDigits (ds : Str) : Option Nat :=
  if parseNatDigits ds ≤ 2147483647 then some (parseNatDigits ds) else none

/-- Rust `str::parse::<u64>` on an arbitrary string: an optional leading plus
sign, then one or more digits, with the value below `2^64`. -/
def u64parse (s : Str) : Option Nat :=
  let t := match s with | '+' :: r => r | _ => s
  if t ≠ [] ∧ t.all is_digit ∧ parseNatDigits t < 18446744073709551616 then some (parseNatDigits t)
  else none

/-- Outcome of a sub-parser whose Rust caller also unwraps: a value with the
rest of the input, a returned nom error (carrying the input at the failure),
or a process abort. -/
inductive POut (α : Type) where
  | ok (a : α) (rest : Str)
  | err (rem : Str)
  | panic (msg : String)
deriving Repr, DecidableEq

/-- The two error payloads `parse_blame_porcelain` can return: a header error
carries the input remainder (the nom error mapped with `map_input`), while the
code-line parser has error type `()` and carries nothing. -/
inductive ParseErr where
  | header (rem : Str)
  | codeLine
deriving Repr, DecidableEq

/-- Outcome of the whole parse (or of one of its loop steps). -/
inductive BOut (α : Type) where
  | ok (a : α)
  | err (e : ParseErr)
  | panic (msg : String)
deriving Repr, DecidableEq

/-- The `opt(preceded(space, digits))` group-size field of a header: it
backtracks to its input when absent. -/
def opt_group (r5 : Str) : Option Str × Str :=
  match tagP [' '] r5 with
  | .err _ => (none, r5)
  | .ok _ r6 =>
    match takeWhile1 is_digit r6 with
    | .err _ => (none, r5)
    | .ok ds r7 => (some ds, r7)

/-- Embeds `parse_header`: `<commit> <orig-line> <final-line>[ <group-size>]`
followed by a line ending.  The two `unwrap`ped `i32` parses abort on
overflow. -/
def parse_header (s : Str) : POut Header :=
  match takeUntil1 [' '] s with
  | .err r => .err r
  | .ok commit r1 =>
  match tagP [' '] r1 with
  | .err r => .err r
  | .ok _ r2 =>
  match takeUntil1 [' '] r2 with
  | .err r => .err r
  | .ok _ r3 =>
  match tagP [' '] r3 with
  | .err r => .err r
  | .ok _ r4 =>
  match takeWhile1 is_digit r4 with
  | .err r => .err r
  | .ok finalLine r5 =>
  match lineEnding (opt_group r5).2 with
  | .err r => .err r
  | .ok _ r8 =>
  match i32ofDigits finalLine with
  | none => .panic "header line_no: i32 unwrap"
  | some ln =>
  match (opt_group r5).1 with
  | none => .ok { commit := commit, line_no := ln, group_size := 1 } r8
  | some ds =>
    match i32ofDigits ds with
    | none => .panic "header group_size: i32 unwrap"
    | some g => .ok { commit := commit, line_no := ln, group_size := g } r8

/-- Embeds one `<field> <value>` commit-info line:
`(terminated(take_until1(" "), tag(" ")), terminated(take_till1(is_line_ending), line_ending))`. -/
def parse_info_line (s : Str) : PRes (Str × Str) :=
  match takeUntil1 [' '] s with
  | .err r => .err r
  | .ok field r1 =>
  match tagP [' '] r1 with
  | .err r => .err r
  | .ok _ r2 =>
  match takeTill1 is_line_ending r2 with
  | .err r => .err r
  | .ok value r3 =>
  match lineEnding r3 with
  | .err r => .err r
  | .ok _ r4 => .ok (field, value) r4

/-- Loop of `parse_commit_info`: accumulate recognized fields until a line that
starts with a tab; exhausting the input is the explicit Rust process abort
whose message (a contraction of "could not") we keep; a non-numeric
committer-time is the unwrap abort.  `fuel` bounds the iteration count. -/
def pciLoop (fuel : Nat) (ret : CommitInfo) (s : Str) : POut CommitInfo :=
  match fuel with
  | 0 => .panic "pciLoop: out of fuel"
  | fuel + 1 =>
    if s = [] then .panic "couldnt find code line starting with tab"
    else if s.take 1 = ['\t'] then .ok ret s
    else
      match parse_info_line s with
      | .err r => .err r
      | .ok (field, value) rest =>
        if field = ("author").toList then pciLoop fuel { ret with author := value } rest
        else if field = ("committer-time").toList then
          match u64parse value with
          | none => .panic "committer-time: u64 unwrap"
          | some ts => pciLoop fuel { ret with commit_time := ts } rest
        else if field = ("filename").toList then pciLoop fuel { ret with path := some value } rest
        else pciLoop fuel ret rest

/-- Embeds `parse_commit_info` (initial record: empty author, epoch time, no
path). -/
def parse_commit_info (s : Str) : POut CommitInfo :=
  pciLoop (s.length + 1) { author := [], commit_time := 0, path := none } s

/-- Embeds the code-line parser
`delimited(tag("\t"), take_till(is_line_ending), line_ending)`. -/
def parse_code (s : Str) : PRes Str :=
  match tagP ['\t'] s with
  | .err r => .err r
  | .ok _ r1 =>
    match lineEnding (takeTill is_line_ending r1).2 with
    | .err r => .err r
    | .ok _ r3 => .ok (takeTill is_line_ending r1).1 r3

/-- Association-list embedding of the `HashMap<&str, Rc<CommitInfo>>` mapping
a commit id to the arena index of its `CommitInfo` allocation. -/
def lookupC (m : List (Str × Nat)) (c : Str) : Option Nat :=
  match m with
  | [] => none
  | (k, v) :: rest => if k = c then some v else lookupC rest c

/-- Embeds the `for _ in 1..group_size` loop: consume `n` further header+code
pairs, appending the code lines; the inner headers are parsed and thrown
away. -/
def groupLoop (n : Nat) (code : List Str) (s : Str) : BOut (List Str × Str) :=
  match n with
  | 0 => .ok (code, s)
  | n + 1 =>
    match parse_header s with
    | .err r => .err (.header r)
    | .panic m => .panic m
    | .ok _ r1 =>
      match parse_code r1 with
      | .err _ => .err .codeLine
      | .ok c r2 => groupLoop n (code ++ [c]) r2

/-- Tail of one loop iteration of `parse_blame_porcelain` after the commit
info has been resolved to the arena index `idx`: first code line, group loop,
hunk construction. -/
def afterInfo (header : Header) (idx : Nat) (commits : List (Str × Nat))
    (infos : List CommitInfo) (s : Str) :
    BOut (BlameLine × (List (Str × Nat) × (List CommitInfo × Str))) :=
  match parse_code s with
  | .err _ => .err .codeLine
  | .ok c r =>
    match groupLoop (header.group_size - 1) [c] r with
    | .err e => .err e
    | .panic m => .panic m
    | .ok (code, rest) =>
      .ok ({ commit := header.commit, line_num := header.line_no, code := code, infoIdx := idx },
           (commits, (infos, rest)))

/-- One iteration of the `parse_blame_porcelain` loop: header, then
`commits.entry(..).or_insert_with(parse_commit_info ..)` (a nom failure inside
the closure is the `expect("expected commit info")` abort; a fresh commit id
allocates the next arena slot), then the code lines. -/
def parseOneHunk (commits : List (Str × Nat)) (infos : List CommitInfo) (s : Str) :
    BOut (BlameLine × (List (Str × Nat) × (List CommitInfo × Str))) :=
  match parse_header s with
  | .err r => .err (.header r)
  | .panic m => .panic m
  | .ok header r1 =>
    match lookupC commits header.commit with
    | some idx => afterInfo header idx commits infos r1
    | none =>
      match parse_commit_info r1 with
      | .err _ => .panic "expected commit info"
      | .panic m => .panic m
      | .ok info r2 =>
        afterInfo header infos.length ((header.commit, infos.length) :: commits)
          (infos ++ [info]) r2

/-- Main loop of `parse_blame_porcelain`; `fuel` bounds the iteration count
(each hunk consumes at least one character). -/
def pbLoop (fuel : Nat) (commits : List (Str × Nat)) (infos : List CommitInfo)
    (acc : List BlameLine) (s : Str) : BOut (List BlameLine × List CommitInfo) :=
  match fuel with
  | 0 => .panic "pbLoop: out of fuel"
  | fuel + 1 =>
    if s = [] then .ok (acc.reverse, infos)
    else
      match parseOneHunk commits infos s with
      | .err e => .err e
      | .panic m => .panic m
      | .ok (b, (commits', (infos', rest))) => pbLoop fuel commits' infos' (b :: acc) rest

/-- Embeds `parse_blame_porcelain`, additionally returning the arena of
`CommitInfo` allocations made during the parse (in creation order). -/
def parse_blame_porcelain (s : Str) : BOut (List BlameLine × List CommitInfo) :=
  pbLoop (s.length + 1) [] [] [] s

/-- Total number of code lines carried by a hunk list (the sum of
`code.len()`). -/
def sumCode (hs : List BlameLine) : Nat := (hs.map (fun b => b.code.length)).sum

/-- The contiguity property of the claims: hunks cover consecutive line
numbers starting at `n`, each next hunk starting where the previous ended. -/
def contiguousFrom (n : Nat) : List BlameLine → Bool
  | [] => true
  | b :: rest => (b.line_num == n) && contiguousFrom (n + b.code.length) rest

/-- Number of tab-prefixed lines of `s`; `atStart` records whether `s` begins
at a line start. -/
def ctl (s : Str) (atStart : Bool) : Nat :=
  match s with
  | [] => 0
  | c :: rest => (if atStart && c == '\t' then 1 else 0) + ctl rest (c == '\n')

/-- Whether the position right after `pre` is a line start, given that `pre`
itself begins at a line start iff `st`. -/
def nextStart : Str → Bool → Bool
  | [], st => st
  | c :: rest, _ => nextStart rest (c == '\n')

/-- The input `s` extends `rest` by a consumed chunk that ends at a line start
and contains at least `k` tab-prefixed line starts. -/
def LineChunk (s rest : Str) (k : Nat) : Prop :=
  ∃ pre, s = pre ++ rest ∧ nextStart pre true = true ∧ k ≤ ctl pre true

/-- Invariant tying the commit map to the arena: every mapped index is a valid
arena slot and distinct commit ids map to distinct slots. -/
def MapInv (commits : List (Str × Nat)) (infos : List CommitInfo) : Prop :=
  (∀ p ∈ commits, p.2 < infos.length) ∧
  (∀ p ∈ commits, ∀ q ∈ commits, p.2 = q.2 → p.1 = q.1)

/-! ## Terminal navigation engine (src/terminal.rs)

External collaborators (git2 lookups, `git::blame`, `git::show`,
`git::log_follow`) are injected as an `Env` of oracle functions; `tui::Text`
is a list of lines (its `height()` is the list length).  Key events carry the
key code and whether the CONTROL modifier is held, which is all the source
patterns distinguish.  `usize` subtraction `len - 1` is modelled with release
build wrapping semantics (`usizeSub1`); conversions whose `unwrap` aborts in
every build profile are modelled with an explicit `panic` outcome. -/

abbrev Oid := Str

abbrev PathT := Str

abbrev TextT := List Str

/-- Embeds `git::BlameHunk` from git.rs: the rendered `Line` (its spans, last
span = the code text), the commit id and the historical path. -/
structure BlameHunk where
  line : List Str
  commit : Oid
  path : Option PathT
deriving Repr, DecidableEq

/-- Embeds `CommitPath` from terminal.rs. -/
structure CommitPath where
  commit : Oid
  path : PathT
deriving Repr, DecidableEq

/-- Embeds the `Search` struct from terminal.rs. -/
structure Search where
  editing : Bool
  query : Str
deriving Repr, DecidableEq

/-- Embeds `App` (the repo handle lives in `Env` instead). -/
structure App where
  blame : List BlameHunk
  blame_state : Option Nat
  commit_stack : List CommitPath
  right_panel : Option TextT
  line_history_scroll : Nat
  popup : Option TextT
  search : Option Search
  line_number : Option Str
deriving Repr, DecidableEq

/-- Oracles for the external collaborators used by `handle_input`:
`repo.find_commit` (the returned commit handle is modelled by its id),
`Commit::parent_id(0)`, `git::blame`, `git::show` and `git::log_follow`. -/
structure Env where
  findCommit : Oid → Except Str Oid
  parentId : Oid → Except Str Oid
  blame : PathT → Oid → Except Str (List BlameHunk)
  showCommit : Oid → TextT
  logFollow : PathT → Nat → Oid → TextT

/-- Key codes distinguished by the source patterns. -/
inductive KeyCode where
  | char (c : Char)
  | esc
  | enter
  | backspace
  | up
  | down
  | pageUp
  | pageDown
  | home
  | endKey
deriving Repr, DecidableEq

/-- A key event: code plus whether CONTROL is held. -/
structure KeyEvent where
  code : KeyCode
  ctrl : Bool
deriving Repr, DecidableEq

/-- Terminal size (`tui::layout::Rect`, the fields the handlers read). -/
structure Rect where
  width : Nat
  height : Nat
deriving Repr, DecidableEq

/-- Result of `handle_input`: `ok` carries the keep-running flag, `err` is the
Rust `Err` return (the `App` reflects any mutations already performed), and
`panic` is a process abort. -/
inductive HRes where
  | ok (cont : Bool) (app : App)
  | err (msg : Str) (app : App)
  | panic
deriving Repr, DecidableEq

/-- Wrapping `usize` decrement: `len - 1` as compiled in release mode (a debug
build would abort on the underflow; no claim depends on the distinction). -/
def usizeSub1 (n : Nat) : Nat := (n + 18446744073709551615) % 18446744073709551616

/-- Embeds `usize::saturating_add_signed`. -/
def satAddUsize (n : Nat) (d : Int) : Nat :=
  (max ((n : Int) + d) 0).toNat.min 18446744073709551615

/-- Embeds `u16::saturating_add_signed`. -/
def satAddU16 (n : Nat) (d : Int) : Nat :=
  (max ((n : Int) + d) 0).toNat.min 65535

/-- Embeds `scroll` from terminal.rs.  In the panel branch the source does
`u16::try_from(height).unwrap()`, an abort for heights above 65535, modelled
here by capping (the claims only exercise the list branch). -/
def scroll (app : App) (ts : Rect) (amount : Int) : App :=
  match app.right_panel with
  | some lh =>
    let mx := (min lh.length 65535) - ts.height
    { app with line_history_scroll := min (satAddU16 app.line_history_scroll amount) mx }
  | none =>
    match app.blame_state with
    | some index =>
      { app with blame_state := some (min (satAddUsize index amount) (usizeSub1 app.blame.length)) }
    | none => { app with blame_state := some 0 }

/-- Rust `str::parse::<usize>`: an optional leading plus sign, then one or
more digits, value below `2^64`. -/
def parseUsize (s : Str) : Option Nat :=
  let t := match s with | '+' :: r => r | _ => s
  if t ≠ [] ∧ t.all is_digit ∧ parseNatDigits t < 18446744073709551616 then some (parseNatDigits t)
  else none

/-- Embeds `str::contains` with a literal pattern: substring test. -/
def containsSub (hay pat : Str) : Bool :=
  match hay with
  | [] => pat.isPrefixOf ([] : Str)
  | _ :: rest => pat.isPrefixOf hay || containsSub rest pat

/-- The text searched for one entry: `blame[i].line.spans.last().unwrap()`.
Hunks built by `git::blame` always carry at least one span; for an empty span
list the source aborts, modelled here by the empty default. -/
def hunkLine (h : BlameHunk) : Str := (h.line.getLast?).getD []

/-- Whether entry `i` of the blame list matches the query (out-of-range
indices never arise from the ranges the source constructs). -/
def hunkMatches (blame : List BlameHunk) (query : Str) (i : Nat) : Bool :=
  match blame.get? i with
  | some h => containsSub (hunkLine h) query
  | none => false

/-- The `for i in range` loop of `handle_search`: select the first matching
index, otherwise leave the selection as it was. -/
def searchLoop (blame : List BlameHunk) (query : Str) (st : Option Nat) :
    List Nat → Option Nat
  | [] => st
  | i :: rest =>
    if hunkMatches blame query i then some i else searchLoop blame query st rest

/-- Embeds `handle_search` from terminal.rs, returning the new selection
(`blame_state` is the only thing the source mutates). -/
def handle_search (blame : List BlameHunk) (query : Str) (st : Option Nat)
    (forward : Bool) : Option Nat :=
  let range : List Nat :=
    if forward then
      let start := match st with | some i => i + 1 | none => 0
      List.range' start (blame.length - start)
    else
      (List.range (st.getD 0)).reverse
  searchLoop blame query st range

/-- Embeds `make_help_text` from terminal.rs. -/
def make_help_text : TextT :=
  ([ "h           this help",
     "q  esc      close window",
     "",
     "    moving",
     "",
     "j  ↓        down one line",
     "k  ↑        up one line",
     "d  pgdown   down half a window",
     "u  pgup     up half a window",
     "G  end      to last line",
     "g  home     to first line",
     ":123        to line 123",
     "",
     "    search",
     "",
     "/           start searching",
     "enter       search forward",
     "n           repeat search forward",
     "N           repeat search backward",
     "",
     "    git",
     "",
     "enter       show commit",
     "w           trace line through history (git -L)",
     "b           reblame line at parent commit",
     "B           undo/pop blame stack" ] : List String).map String.toList

/-- The main `match key` of `handle_input` (reached when no popup is up, no
search entry is being edited, and — because the source attaches its
line-number branch as an `else if` of the search check — whenever a committed
search exists, even if a line-number buffer is also present). -/
def browse_dispatch (key : KeyEvent) (app : App) (env : Env) (ts : Rect) : HRes :=
  match key.code with
  | .char 'j' | .down => .ok true (scroll app ts 1)
  | .char 'k' | .up => .ok true (scroll app ts (-1))
  | .char 'd' | .pageDown =>
    -- (term_size.height / 2).try_into().unwrap() : u16 → i16
    if ts.height / 2 > 32767 then .panic
    else .ok true (scroll app ts ((ts.height / 2 : Nat) : Int))
  | .char 'u' | .pageUp =>
    if ts.height / 2 > 32767 then .panic
    else .ok true (scroll app ts (-((ts.height / 2 : Nat) : Int)))
  | .char 'g' | .home =>
    match app.right_panel with
    | some _ => .ok true { app with line_history_scroll := 0 }
    | none => .ok true { app with blame_state := some 0 }
  | .char 'G' | .endKey =>
    match app.right_panel with
    | some lh =>
      -- u16::try_from(line_history.height()).unwrap().saturating_sub(height)
      if lh.length > 65535 then .panic
      else .ok true { app with line_history_scroll := lh.length - ts.height }
    | none => .ok true { app with blame_state := some (usizeSub1 app.blame.length) }
  | .char ':' => .ok true { app with line_number := some [] }
  | .char '/' => .ok true { app with search := some { editing := true, query := [] } }
  | .char 'n' =>
    match app.search with
    | some s =>
      .ok true { app with blame_state := handle_search app.blame s.query app.blame_state true }
    | none => .ok true app
  | .char 'N' =>
    match app.search with
    | some s =>
      .ok true { app with blame_state := handle_search app.blame s.query app.blame_state false }
    | none => .ok true app
  | .enter =>
    match app.blame_state with
    | some index =>
      match app.blame.get? index with
      | some h => .ok true { app with right_panel := some (env.showCommit h.commit) }
      | none => .panic
    | none => .ok true app
  | .char 'w' =>
    match app.blame_state with
    | some index =>
      match app.commit_stack.getLast? with
      | some cp => .ok true { app with right_panel := some (env.logFollow cp.path index cp.commit) }
      | none => .panic
    | none => .ok true app
  | .char 'b' =>
    match app.blame_state with
    | none => .ok true app
    | some index =>
      match app.blame.get? index with
      | none => .panic
      | some hunk =>
        match env.findCommit hunk.commit with
        | .error e => .err e app
        | .ok cmt =>
          match env.parentId cmt with
          | .error e => .err e app
          | .ok parent =>
            match (match hunk.path with
                   | some p => some p
                   | none => (app.commit_stack.getLast?).map (fun (cp : CommitPath) => cp.path)) with
            | none => .panic
            | some line_path =>
              match env.blame line_path parent with
              | .error e => .err e app
              | .ok newBlame =>
                .ok true { app with
                  blame := newBlame,
                  blame_state := some (min index (usizeSub1 newBlame.length)),
                  commit_stack := app.commit_stack ++ [({ commit := parent, path := line_path } : CommitPath)] }
  | .char 'B' =>
    if app.commit_stack.length > 1 then
      -- the source pops the stack BEFORE the fallible blame request
      let stack' := app.commit_stack.dropLast
      match stack'.getLast? with
      | none => .panic
      | some cp =>
        match env.blame cp.path cp.commit with
        | .error e => .err e { app with commit_stack := stack' }
        | .ok newBlame =>
          let st' :=
            match app.blame_state with
            | some index => some (min index (usizeSub1 newBlame.length))
            | none => none
          .ok true { app with commit_stack := stack', blame := newBlame, blame_state := st' }
    else .ok true app
  | .char 'h' => .ok true { app with popup := some make_help_text }
  | .char 'q' =>
    if app.right_panel.isSome then
      .ok true { app with right_panel := none, line_history_scroll := 0 }
    else .ok false app
  | .esc =>
    if app.right_panel.isSome then
      .ok true { app with right_panel := none, line_history_scroll := 0 }
    else .ok false app
  | _ => .ok true app

/-- Embeds `handle_input` from terminal.rs (dispatch order as in the source:
popup dismissal, search entry while editing, line-number entry — the latter
only reachable when `app.search` is `None` — then the main match). -/
def handle_input (key : KeyEvent) (app : App) (env : Env) (ts : Rect) : HRes :=
  if app.popup.isSome then .ok true { app with popup := none }
  else
    match app.search with
    | some s =>
      if s.editing then
        if key.code = .esc ∨ (key.code = .char 'c' ∧ key.ctrl) then
          .ok true { app with search := none }
        else if key.code = .char 'u' ∧ key.ctrl then
          .ok true { app with search := some { s with query := [] } }
        else
          match key.code with
          | .char c => .ok true { app with search := some { s with query := s.query ++ [c] } }
          | .backspace => .ok true { app with search := some { s with query := s.query.dropLast } }
          | .enter =>
            .ok true { app with
              search := some { s with editing := false },
              blame_state := handle_search app.blame s.query app.blame_state true }
          | _ => .ok true app
      else browse_dispatch key app env ts
    | none =>
      match app.line_number with
      | some ln =>
        if key.code = .esc ∨ (key.code = .char 'c' ∧ key.ctrl) then
          .ok true { app with line_number := none }
        else if key.code = .char 'u' ∧ key.ctrl then
          .ok true { app with line_number := some [] }
        else
          match key.code with
          | .char c =>
            if '0' ≤ c ∧ c ≤ '9' then .ok true { app with line_number := some (ln ++ [c]) }
            else .ok true app
          | .backspace => .ok true { app with line_number := some ln.dropLast }
          | .enter =>
            match parseUsize ln with
            | some index =>
              -- index.clamp(1, len) aborts when len = 0 (clamp asserts min le max)
              if app.blame.length = 0 then .panic
              else
                .ok true { app with
                  blame_state := some (min (max index 1) app.blame.length - 1),
                  line_number := none }
            | none => .ok true app
          | _ => .ok true app
      | none => browse_dispatch key app env ts

/-- One turn of the `run_app` loop: a returned error is converted to a
dismissable popup on the state the handler left behind. -/
def run_app_step (key : KeyEvent) (app : App) (env : Env) (ts : Rect) :
    Option (Bool × App) :=
  match handle_input key app env ts with
  | .ok c a => some (c, a)
  | .err e a => some (true, { a with popup := some [e] })
  | .panic => none

/-! ## Concrete fixtures used by witnesses and counterexamples -/

/-- A porcelain blob whose single header carries final-line 7 and whose
commit-info block has a field token spanning a line break that swallows a
tab-prefixed line. -/
def cInput3 : Str := ("c 1 7\nx\n\ty here\n\tz\n").toList

/-- A porcelain blob with two commits, the first one re-cited later. -/
def wInput4 : Str := ("c 1 1\nauthor a\n\tx\nd 2 2\nauthor b\n\ty\nc 3 3\n\tz\n").toList

/-- The hunks `wInput4` parses to. -/
def wHunks4 : List BlameLine :=
  [{ commit := ("c").toList, line_num := 1, code := [("x").toList], infoIdx := 0 },
   { commit := ("d").toList, line_num := 2, code := [("y").toList], infoIdx := 1 },
   { commit := ("c").toList, line_num := 3, code := [("z").toList], infoIdx := 0 }]

/-- The arena `wInput4` parses to. -/
def wInfos4 : List CommitInfo :=
  [{ author := ("a").toList, commit_time := 0, path := none },
   { author := ("b").toList, commit_time := 0, path := none }]

/-- A porcelain blob whose commit-info block reaches end of input with no
tab-prefixed code line. -/
def cInput7 : Str := ("c 1 1\nauthor a\n").toList

/-- An input whose very first header is malformed (no space at all). -/
def wInput7 : Str := ("nospace").toList

/-- A porcelain blob with a non-numeric committer-time value. -/
def cInput7time : Str := ("c 1 1\ncommitter-time xyz\n\tz\n").toList

/-- A porcelain blob whose final-line number overflows `i32`. -/
def cInput7num : Str := ("c 1 99999999999\nauthor a\n\tz\n").toList

/-- A porcelain blob whose header carries an explicit group-size of 0. -/
def cInput9 : Str := ("c 1 1 0\nauthor a\n\tx\n").toList

/-- A minimal well-formed one-hunk porcelain blob. -/
def wInput9 : Str := ("c 1 1\nauthor a\n\tx\n").toList

/-- A rendered blame entry (last span = code text). -/
def sampleHunk : BlameHunk :=
  { line := [("abc def").toList], commit := ("c1").toList, path := none }

/-- Bottom checkpoint of the sample session. -/
def cpA : CommitPath := { commit := ("c0").toList, path := ("p0").toList }

/-- A second (top) checkpoint. -/
def cpB : CommitPath := { commit := ("c1").toList, path := ("p1").toList }

/-- Oracles that fail every request. -/
def envFail : Env := {
  findCommit := fun _ => .error ("e").toList,
  parentId := fun _ => .error ("e").toList,
  blame := fun _ _ => .error ("boom").toList,
  showCommit := fun _ => [],
  logFollow := fun _ _ _ => [] }

/-- Oracles for a successful re-blame producing a two-entry list. -/
def envOkRe : Env := {
  findCommit := fun c => .ok c,
  parentId := fun _ => .ok ("par").toList,
  blame := fun _ _ => .ok [sampleHunk, sampleHunk],
  showCommit := fun _ => [],
  logFollow := fun _ _ _ => [] }

/-- An 80x24 terminal. -/
def ts0 : Rect := { width := 80, height := 24 }

/-- A browsing state with one entry selected and a single checkpoint. -/
def baseApp : App := {
  blame := [sampleHunk], blame_state := some 0, commit_stack := [cpA],
  right_panel := none, line_history_scroll := 0, popup := none, search := none,
  line_number := none }

/-- Same, with a two-entry checkpoint stack (one re-blame deep). -/
def undoApp : App := { baseApp with commit_stack := [cpA, cpB] }

/-- A state with an empty blame list and no selection. -/
def emptyApp : App := { baseApp with blame := [], blame_state := none }

/-- A state holding both a committed search and a line-jump buffer. -/
def shadowApp : App := { baseApp with
  blame_state := none,
  search := some { editing := false, query := ("q").toList },
  line_number := some [] }

/-- A three-entry list in line-jump entry mode with buffer "7". -/
def jumpApp : App := { baseApp with
  blame := [sampleHunk, sampleHunk, sampleHunk],
  blame_state := none,
  line_number := some [('7')] }

/-- A three-entry list with the last entry selected. -/
def reblameApp : App := { baseApp with
  blame := [sampleHunk, sampleHunk, sampleHunk],
  blame_state := some 2 }

/-- A search-entry state with buffer "abc" being edited. -/
def searchApp : App := { baseApp with
  search := some { editing := true, query := ("abc").toList } }

/-! ## Theorems.  First, facts about the nom-style sub-parsers. -/

theorem tagP_ok {t s a rest : Str} (h : tagP t s = .ok a rest) :
    a = t ∧ s = t ++ rest := by
  unfold tagP at h
  split at h
  · rename_i heq
    cases h
    refine ⟨rfl, ?_⟩
    have hta := List.take_append_drop t.length s
    rw [heq] at hta
    exact hta.symm
  · simp at h

theorem tagP_err {t s r : Str} (h : tagP t s = .err r) : r = s := by
  unfold tagP at h
  split at h
  · simp at h
  · cases h; rfl

theorem takeTill_spec (p : Char → Bool) (s : Str) :
    s = (takeTill p s).1 ++ (takeTill p s).2 := by
  unfold takeTill
  exact (List.takeWhile_append_dropWhile _ _).symm

theorem takeTill1_ok {p : Char → Bool} {s a rest : Str} (h : takeTill1 p s = .ok a rest) :
    s = a ++ rest ∧ a ≠ [] := by
  unfold takeTill1 at h
  split at h
  · simp at h
  · rename_i hne
    cases h
    exact ⟨takeTill_spec p s, hne⟩

theorem takeTill1_err {p : Char → Bool} {s r : Str} (h : takeTill1 p s = .err r) : r = s := by
  unfold takeTill1 at h
  split at h
  · cases h; rfl
  · simp at h

theorem takeWhile1_ok {p : Char → Bool} {s a rest : Str} (h : takeWhile1 p s = .ok a rest) :
    s = a ++ rest ∧ a ≠ [] ∧ ∀ c ∈ a, p c = true := by
  unfold takeWhile1 at h
  simp only [] at h
  split at h
  · simp at h
  · rename_i hne
    cases h
    refine ⟨(List.takeWhile_append_dropWhile _ _).symm, hne, ?_⟩
    intro c hc
    exact List.mem_takeWhile_imp hc

theorem takeWhile1_err {p : Char → Bool} {s r : Str} (h : takeWhile1 p s = .err r) : r = s := by
  unfold takeWhile1 at h
  simp only [] at h
  split at h
  · cases h; rfl
  · simp at h

theorem splitUntil_eq {t s pre rest : Str} (h : splitUntil t s = some (pre, rest)) :
    s = pre ++ rest := by
  induction s generalizing pre rest with
  | nil => simp [splitUntil] at h
  | cons c cs ih =>
    rw [splitUntil] at h
    split at h
    · cases h; rfl
    · split at h
      · rename_i pre' rest' heq
        cases h
        simpa using ih heq
      · simp at h

theorem takeUntil1_ok {t s pre rest : Str} (h : takeUntil1 t s = .ok pre rest) :
    s = pre ++ rest ∧ pre ≠ [] := by
  unfold takeUntil1 at h
  split at h
  · rename_i pre' rest' heq
    split at h
    · simp at h
    · rename_i hne
      cases h
      exact ⟨splitUntil_eq heq, hne⟩
  · simp at h

theorem takeUntil1_err {t s r : Str} (h : takeUntil1 t s = .err r) : r = s := by
  unfold takeUntil1 at h
  split at h
  · split at h
    · cases h; rfl
    · simp at h
  · cases h; rfl

theorem lineEnding_ok {s a rest : Str} (h : lineEnding s = .ok a rest) :
    s = a ++ rest ∧ (a = ['\n'] ∨ a = ['\r', '\n']) := by
  unfold lineEnding at h
  split at h
  · cases h; exact ⟨rfl, Or.inl rfl⟩
  · cases h; exact ⟨rfl, Or.inr rfl⟩
  · simp at h

theorem lineEnding_err {s r : Str} (h : lineEnding s = .err r) : r = s := by
  unfold lineEnding at h
  split at h
  · simp at h
  · simp at h
  · cases h; rfl

/-! ## Chunk accounting: what the composite parsers consume. -/

theorem nextStart_append (xs ys : Str) (st : Bool) :
    nextStart (xs ++ ys) st = nextStart ys (nextStart xs st) := by
  induction xs generalizing st with
  | nil => rfl
  | cons c cs ih => simp [nextStart, ih]

theorem ctl_append (xs ys : Str) (st : Bool) :
    ctl (xs ++ ys) st = ctl xs st + ctl ys (nextStart xs st) := by
  induction xs generalizing st with
  | nil => simp [ctl, nextStart]
  | cons c cs ih =>
    simp [ctl, nextStart, ih]
    omega

theorem LineChunk.trans {s mid rest : Str} {k1 k2 : Nat}
    (h1 : LineChunk s mid k1) (h2 : LineChunk mid rest k2) : LineChunk s rest (k1 + k2) := by
  obtain ⟨p1, hs, hn1, hc1⟩ := h1
  obtain ⟨p2, hm, hn2, hc2⟩ := h2
  refine ⟨p1 ++ p2, ?_, ?_, ?_⟩
  · rw [hs, hm, List.append_assoc]
  · rw [nextStart_append, hn1, hn2]
  · rw [ctl_append, hn1]
    omega

theorem LineChunk.refl_zero (s : Str) : LineChunk s s 0 := ⟨[], rfl, rfl, Nat.zero_le _⟩

theorem LineChunk.len_le {s rest : Str} {k : Nat} (h : LineChunk s rest k) :
    rest.length ≤ s.length := by
  obtain ⟨p, hs, -, -⟩ := h
  rw [hs]
  simp

theorem LineChunk.suffix {s rest : Str} {k : Nat} (h : LineChunk s rest k) : rest <:+ s := by
  obtain ⟨p, hs, -, -⟩ := h
  exact ⟨p, hs.symm⟩

theorem LineChunk.le_ctl {s rest : Str} {k : Nat} (h : LineChunk s rest k) :
    k + ctl rest true ≤ ctl s true := by
  obtain ⟨p, hs, hn, hc⟩ := h
  rw [hs, ctl_append, hn]
  omega

theorem nextStart_lineEnd {le : Str} (hle : le = ['\n'] ∨ le = ['\r', '\n']) (b : Bool) :
    nextStart le b = true := by
  rcases hle with h | h <;> subst h <;> rfl

theorem parse_info_line_ok {s f v rest : Str} (h : parse_info_line s = .ok (f, v) rest) :
    LineChunk s rest 0 ∧ rest.length < s.length := by
  unfold parse_info_line at h
  split at h
  · simp at h
  · rename_i field r1 hfield
    split at h
    · simp at h
    · rename_i a r2 hsp
      split at h
      · simp at h
      · rename_i value r3 hval
        split at h
        · simp at h
        · rename_i le r4 hle
          cases h
  -- hunk: not one; proof continues in tactic block below
          obtain ⟨h1, hne1⟩ := takeUntil1_ok hfield
          obtain ⟨-, h2⟩ := tagP_ok hsp
          obtain ⟨h3, hne3⟩ := takeTill1_ok hval
          obtain ⟨h4, hle4⟩ := lineEnding_ok hle
          constructor
          · refine ⟨f ++ ([' '] ++ (v ++ le)), ?_, ?_, Nat.zero_le _⟩
            · rw [h1, h2, h3, h4]
              simp [List.append_assoc]
            · simp [nextStart, nextStart_append, nextStart_lineEnd hle4]
          · rw [h1, h2, h3, h4]
            rcases hle4 with h5 | h5 <;> subst h5 <;> simp [List.length_append] <;> omega

theorem opt_group_split (r5 : Str) : ∃ pre, r5 = pre ++ (opt_group r5).2 := by
  unfold opt_group
  split
  · exact ⟨[], rfl⟩
  · rename_i a r6 htag
    split
    · exact ⟨[], rfl⟩
    · rename_i ds r7 hdig
      obtain ⟨ha, h1⟩ := tagP_ok htag
      obtain ⟨h2, -, -⟩ := takeWhile1_ok hdig
      show ∃ pre, r5 = pre ++ r7
      refine ⟨[' '] ++ ds, ?_⟩
      rw [h1, h2, List.append_assoc]

theorem parse_header_ok_chunk {s rest : Str} {hd : Header}
    (h : parse_header s = .ok hd rest) :
    LineChunk s rest 0 ∧ rest.length < s.length := by
  unfold parse_header at h
  split at h
  · simp at h
  · rename_i commit r1 hcommit
    split at h
    · simp at h
    · rename_i a r2 htag1
      split at h
      · simp at h
      · rename_i orig r3 horig
        split at h
        · simp at h
        · rename_i a2 r4 htag2
          split at h
          · simp at h
          · rename_i finalLine r5 hfinal
            split at h
            · simp at h
            · rename_i le r8 hle
              obtain ⟨h1, hne1⟩ := takeUntil1_ok hcommit
              obtain ⟨ha, h2⟩ := tagP_ok htag1
              obtain ⟨h3, hne3⟩ := takeUntil1_ok horig
              obtain ⟨ha2, h4⟩ := tagP_ok htag2
              obtain ⟨h5, hne5, -⟩ := takeWhile1_ok hfinal
              obtain ⟨preG, h6⟩ := opt_group_split r5
              obtain ⟨h7, hle7⟩ := lineEnding_ok hle
              have hrest : rest = r8 := by
                split at h
                · simp at h
                · split at h
                  · cases h; rfl
                  · split at h
                    · simp at h
                    · cases h; rfl
              subst hrest
              constructor
              · refine ⟨commit ++ ([' '] ++ (orig ++ ([' '] ++ (finalLine ++ (preG ++ le))))),
                  ?_, ?_, Nat.zero_le _⟩
                · rw [h1, h2, h3, h4, h5, h6, h7]
                  simp [List.append_assoc]
                · simp [nextStart, nextStart_append, nextStart_lineEnd hle7]
              · rw [h1, h2, h3, h4, h5, h6, h7]
                rcases hle7 with h8 | h8 <;> subst h8 <;> simp [List.length_append] <;> omega

theorem parse_header_err {s r : Str} (h : parse_header s = .err r) : r <:+ s := by
  unfold parse_header at h
  split at h
  · rename_i r' herr
    cases h
    rw [takeUntil1_err herr]
  · rename_i commit r1 hcommit
    have hs1 : r1 <:+ s := ⟨commit, (takeUntil1_ok hcommit).1.symm⟩
    split at h
    · rename_i r' herr
      cases h
      rw [tagP_err herr]
      exact hs1
    · rename_i a r2 htag1
      have hs2 : r2 <:+ s :=
        List.IsSuffix.trans (⟨[' '], (tagP_ok htag1).2.symm⟩ : r2 <:+ r1) hs1
      split at h
      · rename_i r' herr
        cases h
        rw [takeUntil1_err herr]
        exact hs2
      · rename_i orig r3 horig
        have hs3 : r3 <:+ s :=
          List.IsSuffix.trans (⟨orig, (takeUntil1_ok horig).1.symm⟩ : r3 <:+ r2) hs2
        split at h
        · rename_i r' herr
          cases h
          rw [tagP_err herr]
          exact hs3
        · rename_i a2 r4 htag2
          have hs4 : r4 <:+ s :=
            List.IsSuffix.trans (⟨[' '], (tagP_ok htag2).2.symm⟩ : r4 <:+ r3) hs3
          split at h
          · rename_i r' herr
            cases h
            rw [takeWhile1_err herr]
            exact hs4
          · rename_i finalLine r5 hfinal
            have hs5 : r5 <:+ s :=
              List.IsSuffix.trans
                (⟨finalLine, (takeWhile1_ok hfinal).1.symm⟩ : r5 <:+ r4) hs4
            split at h
            · rename_i r' herr
              cases h
              rw [lineEnding_err herr]
              obtain ⟨preG, h6⟩ := opt_group_split r5
              exact List.IsSuffix.trans
                (⟨preG, h6.symm⟩ : (opt_group r5).2 <:+ r5) hs5
            · rename_i le r8 hle
              split at h
              · simp at h
              · split at h
                · simp at h
                · split at h
                  · simp at h
                  · simp at h

theorem parse_code_ok_chunk {s rest : Str} {c : Str} (h : parse_code s = .ok c rest) :
    LineChunk s rest 1 ∧ rest.length < s.length := by
  unfold parse_code at h
  split at h
  · simp at h
  · rename_i a r1 htag
    split at h
    · simp at h
    · rename_i le r3 hle
      cases h
      obtain ⟨ha, h1⟩ := tagP_ok htag
      have h2 := takeTill_spec is_line_ending r1
      rcases htt : takeTill is_line_ending r1 with ⟨ct, r2⟩
      rw [htt] at h2 hle
      simp only [] at h2 hle
      obtain ⟨h3, hle3⟩ := lineEnding_ok hle
      have htabnl : (('\t' : Char) == '\n') = false := by decide
      constructor
      · refine ⟨'\t' :: (ct ++ le), ?_, ?_, ?_⟩
        · rw [h1]
          show ['\t'] ++ r1 = _
          rw [h2, h3]
          simp [List.append_assoc]
        · simp [nextStart, nextStart_append, nextStart_lineEnd hle3]
        · have hctl : ctl ('\t' :: (ct ++ le)) true = 1 + ctl (ct ++ le) false := by
            simp [ctl, htabnl]
          omega
      · rw [h1, h2, h3]
        rcases hle3 with h8 | h8 <;> subst h8 <;> simp [List.length_append] <;> omega

theorem pciLoop_ok_chunk :
    ∀ (fuel : Nat) (ret : CommitInfo) (s : Str) (info : CommitInfo) (rest : Str),
    pciLoop fuel ret s = .ok info rest →
    LineChunk s rest 0 ∧ rest.length ≤ s.length := by
  intro fuel
  induction fuel with
  | zero =>
    intro ret s info rest h
    simp [pciLoop] at h
  | succ fuel ih =>
    intro ret s info rest h
    rw [pciLoop] at h
    split at h
    · simp at h
    · split at h
      · cases h
        exact ⟨LineChunk.refl_zero s, le_refl _⟩
      · split at h
        · simp at h
        · rename_i field value r hline
          obtain ⟨hc, hlt⟩ := parse_info_line_ok hline
          split at h
          · obtain ⟨hc2, hle2⟩ := ih _ _ _ _ h
            constructor
            · simpa using hc.trans hc2
            · omega
          · split at h
            · split at h
              · simp at h
              · obtain ⟨hc2, hle2⟩ := ih _ _ _ _ h
                constructor
                · simpa using hc.trans hc2
                · omega
            · split at h
              · obtain ⟨hc2, hle2⟩ := ih _ _ _ _ h
                constructor
                · simpa using hc.trans hc2
                · omega
              · obtain ⟨hc2, hle2⟩ := ih _ _ _ _ h
                constructor
                · simpa using hc.trans hc2
                · omega

theorem parse_commit_info_ok_chunk {s : Str} {info : CommitInfo} {rest : Str}
    (h : parse_commit_info s = .ok info rest) :
    LineChunk s rest 0 ∧ rest.length ≤ s.length :=
  pciLoop_ok_chunk _ _ _ _ _ h

theorem groupLoop_ok :
    ∀ (n : Nat) (code : List Str) (s : Str) (codeF : List Str) (rest : Str),
    groupLoop n code s = .ok (codeF, rest) →
    codeF.length = code.length + n ∧ LineChunk s rest n ∧ rest.length ≤ s.length := by
  intro n
  induction n with
  | zero =>
    intro code s codeF rest h
    rw [groupLoop] at h
    cases h
    exact ⟨by simp, LineChunk.refl_zero s, le_refl _⟩
  | succ n ih =>
    intro code s codeF rest h
    rw [groupLoop] at h
    split at h
    · simp at h
    · simp at h
    · rename_i hd r1 hhd
      split at h
      · simp at h
      · rename_i c r2 hcode
        obtain ⟨hlen, hc2, hle2⟩ := ih _ _ _ _ h
        obtain ⟨hch, hlth⟩ := parse_header_ok_chunk hhd
        obtain ⟨hcc, hltc⟩ := parse_code_ok_chunk hcode
        refine ⟨?_, ?_, by omega⟩
        · simp at hlen
          omega
        · have htr := (hch.trans hcc).trans hc2
          simpa [Nat.add_comm] using htr

theorem groupLoop_err :
    ∀ (n : Nat) (code : List Str) (s : Str) (r : Str),
    groupLoop n code s = .err (.header r) → r <:+ s := by
  intro n
  induction n with
  | zero =>
    intro code s r h
    simp [groupLoop] at h
  | succ n ih =>
    intro code s r h
    rw [groupLoop] at h
    split at h
    · rename_i r' hhd
      cases h
      exact parse_header_err hhd
    · simp at h
    · rename_i hd r1 hhd
      split at h
      · simp at h
      · rename_i c r2 hcode
        have h1 := (parse_header_ok_chunk hhd).1.suffix
        have h2 := (parse_code_ok_chunk hcode).1.suffix
        exact List.IsSuffix.trans (List.IsSuffix.trans (ih _ _ _ h) h2) h1

theorem afterInfo_ok {hd : Header} {idx : Nat} {commits : List (Str × Nat)}
    {infos : List CommitInfo} {s : Str} {b : BlameLine} {c2 : List (Str × Nat)}
    {i2 : List CommitInfo} {rest : Str}
    (h : afterInfo hd idx commits infos s = .ok (b, (c2, (i2, rest)))) :
    b.commit = hd.commit ∧ b.line_num = hd.line_no ∧ b.infoIdx = idx ∧
    b.code.length = max hd.group_size 1 ∧ b.code ≠ [] ∧ c2 = commits ∧ i2 = infos ∧
    LineChunk s rest b.code.length ∧ rest.length < s.length := by
  unfold afterInfo at h
  split at h
  · simp at h
  · rename_i c r hcode
    split at h
    · simp at h
    · simp at h
    · rename_i code rest2 hgroup
      cases h
      obtain ⟨hlen, hchunk, hle⟩ := groupLoop_ok _ _ _ _ _ hgroup
      obtain ⟨hc1, hlt1⟩ := parse_code_ok_chunk hcode
      have hlen1 : code.length = 1 + (hd.group_size - 1) := by simpa using hlen
      refine ⟨rfl, rfl, rfl, ?_, ?_, rfl, rfl, ?_, by omega⟩
      · show code.length = max hd.group_size 1
        omega
      · show code ≠ []
        intro hnil
        rw [hnil] at hlen1
        simp at hlen1
        omega
      · show LineChunk s rest code.length
        rw [hlen1]
        exact hc1.trans hchunk

theorem parseOneHunk_ok {commits : List (Str × Nat)} {infos : List CommitInfo} {s : Str}
    {b : BlameLine} {c2 : List (Str × Nat)} {i2 : List CommitInfo} {rest : Str}
    (h : parseOneHunk commits infos s = .ok (b, (c2, (i2, rest)))) :
    (∃ hd r1, parse_header s = .ok hd r1 ∧ b.commit = hd.commit ∧
      b.line_num = hd.line_no ∧ b.code.length = max hd.group_size 1) ∧
    b.code ≠ [] ∧ LineChunk s rest b.code.length ∧ rest.length < s.length ∧
    ((c2 = commits ∧ i2 = infos ∧ lookupC commits b.commit = some b.infoIdx) ∨
     (lookupC commits b.commit = none ∧ b.infoIdx = infos.length ∧
      c2 = (b.commit, infos.length) :: commits ∧ ∃ info, i2 = infos ++ [info])) := by
  unfold parseOneHunk at h
  split at h
  · simp at h
  · simp at h
  · rename_i hd r1 hhd
    obtain ⟨hch, hlth⟩ := parse_header_ok_chunk hhd
    split at h
    · rename_i idx hidx
      obtain ⟨hb1, hb2, hb3, hb4, hb5, hb6, hb7, hb8, hb9⟩ := afterInfo_ok h
      refine ⟨⟨hd, r1, hhd, hb1, hb2, hb4⟩, hb5, ?_, by omega, ?_⟩
      · simpa using hch.trans hb8
      · left
        refine ⟨hb6, hb7, ?_⟩
        rw [hb1, hb3]
        exact hidx
    · rename_i hnone
      split at h
      · simp at h
      · simp at h
      · rename_i info r2 hinfo
        obtain ⟨hci, hcile⟩ := parse_commit_info_ok_chunk hinfo
        obtain ⟨hb1, hb2, hb3, hb4, hb5, hb6, hb7, hb8, hb9⟩ := afterInfo_ok h
        refine ⟨⟨hd, r1, hhd, hb1, hb2, hb4⟩, hb5, ?_, by omega, ?_⟩
        · simpa using (hch.trans hci).trans hb8
        · right
          refine ⟨?_, hb3, ?_, ⟨info, hb7⟩⟩
          · rw [hb1]
            exact hnone
          · rw [hb1]
            exact hb6

theorem afterInfo_err {hd : Header} {idx : Nat} {commits : List (Str × Nat)}
    {infos : List CommitInfo} {s r : Str}
    (h : afterInfo hd idx commits infos s = .err (.header r)) : r <:+ s := by
  unfold afterInfo at h
  split at h
  · simp at h
  · rename_i c r1 hcode
    split at h
    · rename_i e hg
      cases h
      exact List.IsSuffix.trans (groupLoop_err _ _ _ _ hg) (parse_code_ok_chunk hcode).1.suffix
    · simp at h
    · simp at h

theorem parseOneHunk_err {commits : List (Str × Nat)} {infos : List CommitInfo} {s r : Str}
    (h : parseOneHunk commits infos s = .err (.header r)) : r <:+ s := by
  unfold parseOneHunk at h
  split at h
  · rename_i r' hhd
    cases h
    exact parse_header_err hhd
  · simp at h
  · rename_i hd r1 hhd
    have hs1 := (parse_header_ok_chunk hhd).1.suffix
    split at h
    · rename_i idx hidx
      exact List.IsSuffix.trans (afterInfo_err h) hs1
    · split at h
      · simp at h
      · simp at h
      · rename_i info r2 hinfo
        exact List.IsSuffix.trans
          (List.IsSuffix.trans (afterInfo_err h) (parse_commit_info_ok_chunk hinfo).1.suffix) hs1

theorem lookupC_mem {m : List (Str × Nat)} {c : Str} {i : Nat}
    (h : lookupC m c = some i) : (c, i) ∈ m := by
  induction m with
  | nil => simp [lookupC] at h
  | cons kv rest ih =>
    obtain ⟨k, v⟩ := kv
    rw [lookupC] at h
    split at h
    · rename_i hk
      cases h
      subst hk
      exact List.mem_cons_self _ _
    · exact List.mem_cons_of_mem _ (ih h)

theorem lookupC_cons_fresh {m : List (Str × Nat)} {cNew x : Str} {n i : Nat}
    (hx : lookupC m x = some i) (hnew : lookupC m cNew = none) :
    lookupC ((cNew, n) :: m) x = some i := by
  rw [lookupC]
  split
  · rename_i hk
    subst hk
    rw [hnew] at hx
    cases hx
  · exact hx

theorem lookupC_cons_self (m : List (Str × Nat)) (c : Str) (n : Nat) :
    lookupC ((c, n) :: m) c = some n := by
  rw [lookupC]
  simp

theorem MapInv.extend {commits : List (Str × Nat)} {infos : List CommitInfo} {c : Str}
    (hinv : MapInv commits infos) (hnone : lookupC commits c = none) (info : CommitInfo) :
    MapInv ((c, infos.length) :: commits) (infos ++ [info]) := by
  obtain ⟨hb, hinj⟩ := hinv
  constructor
  · intro p hp
    rcases List.mem_cons.mp hp with hp | hp
    · subst hp
      simp
    · have := hb p hp
      simp
      omega
  · intro p hp q hq hpq
    rcases List.mem_cons.mp hp with hp | hp <;> rcases List.mem_cons.mp hq with hq | hq
    · subst hp
      subst hq
      rfl
    · subst hp
      have := hb q hq
      simp at hpq
      exfalso
      omega
    · subst hq
      have := hb p hp
      simp at hpq
      exfalso
      omega
    · exact hinj p hp q hq hpq

theorem pbLoop_ok_facts :
    ∀ (fuel : Nat) (commits : List (Str × Nat)) (infos : List CommitInfo)
      (acc : List BlameLine) (s : Str) (hs : List BlameLine) (infosF : List CommitInfo),
    pbLoop fuel commits infos acc s = .ok (hs, infosF) →
    s.length < fuel →
    MapInv commits infos →
    (∀ b ∈ acc, lookupC commits b.commit = some b.infoIdx) →
    (∀ b ∈ acc, b.code ≠ []) →
    ∃ commitsF,
      MapInv commitsF infosF ∧
      (∀ b ∈ hs, lookupC commitsF b.commit = some b.infoIdx) ∧
      (∀ b ∈ hs, b.code ≠ []) ∧
      sumCode hs ≤ sumCode acc + ctl s true := by
  intro fuel
  induction fuel with
  | zero =>
    intro commits infos acc s hs infosF h hlen
    omega
  | succ fuel ih =>
    intro commits infos acc s hs infosF h hlen hinv hacc haccne
    rw [pbLoop] at h
    split at h
    · rename_i hsnil
      cases h
      subst hsnil
      refine ⟨commits, hinv, ?_, ?_, ?_⟩
      · intro b hb
        exact hacc b (List.mem_reverse.mp hb)
      · intro b hb
        exact haccne b (List.mem_reverse.mp hb)
      · simp [sumCode, ctl, List.map_reverse, List.sum_reverse]
    · split at h
      · simp at h
      · simp at h
      · rename_i b c2 i2 rest hstep
        obtain ⟨-, hbne, hchunk, hlt, hmap⟩ := parseOneHunk_ok hstep
        have hctl := hchunk.le_ctl
        have hsum : sumCode (b :: acc) = b.code.length + sumCode acc := by
          simp [sumCode]
        rcases hmap with ⟨hc2, hi2, hlook⟩ | ⟨hnone, hidx, hc2, info, hi2⟩
        · rw [hc2, hi2] at h
          have haccnew : ∀ x ∈ b :: acc, lookupC commits x.commit = some x.infoIdx := by
            intro x hx
            rcases List.mem_cons.mp hx with hx | hx
            · subst hx
              exact hlook
            · exact hacc x hx
          have haccnene : ∀ x ∈ b :: acc, x.code ≠ [] := by
            intro x hx
            rcases List.mem_cons.mp hx with hx | hx
            · subst hx
              exact hbne
            · exact haccne x hx
          obtain ⟨cF, hF1, hF2, hF3, hF4⟩ :=
            ih _ _ _ _ _ _ h (by omega) hinv haccnew haccnene
          refine ⟨cF, hF1, hF2, hF3, ?_⟩
          rw [hsum] at hF4
          omega
        · rw [hc2, hi2] at h
          have hinv2 := hinv.extend hnone info
          have haccnew : ∀ x ∈ b :: acc,
              lookupC ((b.commit, infos.length) :: commits) x.commit = some x.infoIdx := by
            intro x hx
            rcases List.mem_cons.mp hx with hx | hx
            · subst hx
              rw [hidx]
              exact lookupC_cons_self _ _ _
            · exact lookupC_cons_fresh (hacc x hx) hnone
          have haccnene : ∀ x ∈ b :: acc, x.code ≠ [] := by
            intro x hx
            rcases List.mem_cons.mp hx with hx | hx
            · subst hx
              exact hbne
            · exact haccne x hx
          obtain ⟨cF, hF1, hF2, hF3, hF4⟩ :=
            ih _ _ _ _ _ _ h (by omega) hinv2 haccnew haccnene
          refine ⟨cF, hF1, hF2, hF3, ?_⟩
          rw [hsum] at hF4
          omega

theorem pbLoop_err_header :
    ∀ (fuel : Nat) (commits : List (Str × Nat)) (infos : List CommitInfo)
      (acc : List BlameLine) (s : Str) (r : Str),
    pbLoop fuel commits infos acc s = .err (.header r) →
    s.length < fuel →
    r <:+ s := by
  intro fuel
  induction fuel with
  | zero =>
    intro commits infos acc s r h hlen
    omega
  | succ fuel ih =>
    intro commits infos acc s r h hlen
    rw [pbLoop] at h
    split at h
    · simp at h
    · split at h
      · rename_i e hstep
        cases h
        exact parseOneHunk_err hstep
      · simp at h
      · rename_i b c2 i2 rest hstep
        obtain ⟨-, -, hchunk, hlt, -⟩ := parseOneHunk_ok hstep
        exact List.IsSuffix.trans (ih _ _ _ _ _ h (by omega)) hchunk.suffix

/-- C4: for every successful parse, two hunks carry the same commit-info
handle (the same arena index, i.e. the same `Rc<CommitInfo>` allocation) iff
they cite the same commit id, and every handle points into the arena of this
parse — the `CommitInfo` is created once per commit id, on first sight, and
shared thereafter. -/
theorem c4_dedup_theorem (input : Str) (hs : List BlameLine) (infos : List CommitInfo)
    (h : parse_blame_porcelain input = .ok (hs, infos)) :
    (∀ a ∈ hs, ∀ b ∈ hs, (a.commit = b.commit ↔ a.infoIdx = b.infoIdx)) ∧
    (∀ a ∈ hs, a.infoIdx < infos.length) := by
  unfold parse_blame_porcelain at h
  obtain ⟨cF, hinv, hlook, -, -⟩ :=
    pbLoop_ok_facts _ _ _ _ _ _ _ h (by omega) ⟨by simp, by simp⟩ (by simp) (by simp)
  constructor
  · intro a ha b hb
    constructor
    · intro hco
      have h1 := hlook a ha
      have h2 := hlook b hb
      rw [hco, h2] at h1
      injection h1 with h1
      exact h1.symm
    · intro hidx
      have h1 := lookupC_mem (hlook a ha)
      have h2 := lookupC_mem (hlook b hb)
      exact hinv.2 _ h1 _ h2 hidx
  · intro a ha
    have := hinv.1 _ (lookupC_mem (hlook a ha))
    simpa using this

/-- Witness for C4 at a concrete porcelain blob whose first commit is cited
again by a later hunk. -/
theorem c4_dedup_witness :
    (∀ a ∈ wHunks4, ∀ b ∈ wHunks4, (a.commit = b.commit ↔ a.infoIdx = b.infoIdx)) ∧
    (∀ a ∈ wHunks4, a.infoIdx < wInfos4.length) :=
  c4_dedup_theorem wInput4 wHunks4 wInfos4 (by rfl)

/-- C3 counterexample: a parse can succeed with hunk line numbers that do not
start at 1 (the header carried 7) and with fewer code lines than tab-prefixed
input lines (a commit-info field token spanning a line break swallowed one). -/
theorem c3_counterexample :
    parse_blame_porcelain cInput3 =
      .ok ([{ commit := ("c").toList, line_num := 7, code := [("z").toList], infoIdx := 0 }],
           [{ author := [], commit_time := 0, path := none }]) ∧
    sumCode [{ commit := ("c").toList, line_num := 7, code := [("z").toList], infoIdx := 0 }] = 1 ∧
    ctl cInput3 true = 2 ∧
    contiguousFrom 1
      [{ commit := ("c").toList, line_num := 7, code := [("z").toList], infoIdx := 0 }] = false :=
  ⟨by rfl, by rfl, by rfl, by rfl⟩

/-- C3 (amended): every hunk of a successful parse carries at least one code
line, and the total code-line count is at most the number of tab-prefixed
lines of the input.  The parser copies header final-line values verbatim and
does not validate them, so contiguity from 1 — and the exact equality with
the tab-line count — hold only for inputs whose headers carry the running
line count, as genuine git blame output does. -/
theorem c3_grouping_amended (input : Str) (hs : List BlameLine) (infos : List CommitInfo)
    (h : parse_blame_porcelain input = .ok (hs, infos)) :
    (∀ b ∈ hs, b.code ≠ []) ∧ sumCode hs ≤ ctl input true := by
  unfold parse_blame_porcelain at h
  obtain ⟨cF, -, -, hne, hsum⟩ :=
    pbLoop_ok_facts _ _ _ _ _ _ _ h (by omega) ⟨by simp, by simp⟩ (by simp) (by simp)
  refine ⟨hne, ?_⟩
  simpa [sumCode] using hsum

/-- Witness for the amended C3 at a concrete three-hunk blob. -/
theorem c3_grouping_witness :
    (∀ b ∈ wHunks4, b.code ≠ []) ∧ sumCode wHunks4 ≤ ctl wInput4 true :=
  c3_grouping_amended wInput4 wHunks4 wInfos4 (by rfl)

/-- C7 counterexample: on a commit-info block that reaches end of input
without a tab-prefixed code line, `parse_blame_porcelain` does not return an
error value — it aborts the process (the message keeps the source text, with
its contraction of "could not" spelled without the apostrophe). -/
theorem c7_counterexample :
    parse_blame_porcelain cInput7 = .panic "couldnt find code line starting with tab" := by
  rfl

/-- C7 (amended): a malformed header makes `parse_blame_porcelain` return an
error value carrying a remainder of the input (the suffix at which the
failing sub-parser stopped); but a commit-info block that exhausts the input
and every numeric-field failure (non-numeric committer-time, i32 overflow of
a line number or group size) abort the process instead of returning an
error; no malformed input is ever skipped. -/
theorem c7_error_amended :
    (∀ input r : Str, parse_blame_porcelain input = .err (.header r) → r <:+ input) ∧
    parse_blame_porcelain cInput7time = .panic "committer-time: u64 unwrap" ∧
    parse_blame_porcelain cInput7num = .panic "header line_no: i32 unwrap" := by
  refine ⟨?_, by rfl, by rfl⟩
  intro input r h
  unfold parse_blame_porcelain at h
  exact pbLoop_err_header _ _ _ _ _ _ h (by omega)

/-- Witness for the amended C7: the malformed-header error on "nospace"
carries the whole input as its remainder, a suffix of the input. -/
theorem c7_error_witness : wInput7 <:+ wInput7 :=
  c7_error_amended.1 wInput7 wInput7 (by rfl)

theorem splitUntil_sp {xs : Str} (ys : Str) (hx : ' ' ∉ xs) :
    splitUntil [' '] (xs ++ ' ' :: ys) = some (xs, ' ' :: ys) := by
  induction xs with
  | nil => simp [splitUntil, List.isPrefixOf]
  | cons c cs ih =>
    have hc : c ≠ ' ' := by
      intro hh
      exact hx (by simp [hh])
    have hcs : ' ' ∉ cs := fun hh => hx (List.mem_cons_of_mem _ hh)
    have hpre : ([' '] : Str).isPrefixOf (c :: (cs ++ ' ' :: ys)) = false := by
      simp [List.isPrefixOf]
      exact fun hh => hc hh.symm
    simp only [List.cons_append]
    rw [splitUntil, if_neg (by simp [hpre]), ih hcs]

theorem takeWhile_digits {f : Str} (x : Char) (r : Str)
    (hf : ∀ c ∈ f, is_digit c = true) (hx : is_digit x = false) :
    (f ++ x :: r).takeWhile is_digit = f ∧ (f ++ x :: r).dropWhile is_digit = x :: r := by
  induction f with
  | nil => simp [List.takeWhile_cons, List.dropWhile_cons, hx]
  | cons c cs ih =>
    have hc := hf c (by simp)
    have hcs : ∀ d ∈ cs, is_digit d = true := fun d hd => hf d (by simp [hd])
    obtain ⟨h1, h2⟩ := ih hcs
    simp [List.takeWhile_cons, List.dropWhile_cons, hc, h1, h2]

/-- C9 counterexample: a header carrying an explicit group-size of 0 still
consumes one header+code pair and yields a hunk with one code line, not
zero. -/
theorem c9_counterexample :
    parse_header cInput9 =
      .ok { commit := ("c").toList, line_no := 1, group_size := 0 } (("author a\n\tx\n").toList) ∧
    parse_blame_porcelain cInput9 =
      .ok ([{ commit := ("c").toList, line_num := 1, code := [("x").toList], infoIdx := 0 }],
           [{ author := ("a").toList, commit_time := 0, path := none }]) :=
  ⟨by rfl, by rfl⟩

/-- C9 (amended): the group-size field defaults to 1 when absent, and a hunk
produced from a header with group-size N collects max(N, 1) code lines into
one hunk starting at the final-line value — the degenerate N = 0 consumes one
header+code pair, not zero. -/
theorem c9_group_amended :
    (∀ (commits : List (Str × Nat)) (infos : List CommitInfo) (s : Str)
       (b : BlameLine) (c2 : List (Str × Nat)) (i2 : List CommitInfo) (rest : Str),
      parseOneHunk commits infos s = .ok (b, (c2, (i2, rest))) →
      ∃ hd r1, parse_header s = .ok hd r1 ∧ b.commit = hd.commit ∧
        b.line_num = hd.line_no ∧ b.code.length = max hd.group_size 1) ∧
    (∀ cmt orig f rest : Str,
      cmt ≠ [] → ' ' ∉ cmt → orig ≠ [] → ' ' ∉ orig → f ≠ [] →
      (∀ c ∈ f, is_digit c = true) → parseNatDigits f ≤ 2147483647 →
      parse_header (cmt ++ [' '] ++ orig ++ [' '] ++ f ++ ['\n'] ++ rest) =
        .ok { commit := cmt, line_no := parseNatDigits f, group_size := 1 } rest) := by
  constructor
  · intro commits infos s b c2 i2 rest h
    exact (parseOneHunk_ok h).1
  · intro cmt orig f rest hc1 hc2 ho1 ho2 hf1 hf2 hf3
    have hshape : cmt ++ [' '] ++ orig ++ [' '] ++ f ++ ['\n'] ++ rest
        = cmt ++ ' ' :: (orig ++ ' ' :: (f ++ '\n' :: rest)) := by
      simp [List.append_assoc]
    rw [hshape]
    have h1 : takeUntil1 [' '] (cmt ++ ' ' :: (orig ++ ' ' :: (f ++ '\n' :: rest)))
        = .ok cmt (' ' :: (orig ++ ' ' :: (f ++ '\n' :: rest))) := by
      unfold takeUntil1
      rw [splitUntil_sp _ hc2]
      simp [hc1]
    have h2 : ∀ t : Str, tagP [' '] (' ' :: t) = .ok [' '] t := by
      intro t
      unfold tagP
      simp
    have h3 : takeUntil1 [' '] (orig ++ ' ' :: (f ++ '\n' :: rest))
        = .ok orig (' ' :: (f ++ '\n' :: rest)) := by
      unfold takeUntil1
      rw [splitUntil_sp _ ho2]
      simp [ho1]
    have h5 : takeWhile1 is_digit (f ++ '\n' :: rest) = .ok f ('\n' :: rest) := by
      unfold takeWhile1
      obtain ⟨ht, hd⟩ := takeWhile_digits '\n' rest hf2 (by decide)
      simp only [ht, hd]
      simp [hf1]
    have h6 : opt_group ('\n' :: rest) = (none, '\n' :: rest) := by
      unfold opt_group
      have htag : tagP [' '] ('\n' :: rest) = .err ('\n' :: rest) := by
        unfold tagP
        simp
      rw [htag]
    have h7 : lineEnding ('\n' :: rest) = .ok ['\n'] rest := rfl
    have h8 : i32ofDigits f = some (parseNatDigits f) := by
      unfold i32ofDigits
      rw [if_pos hf3]
    unfold parse_header
    rw [h1]
    simp only []
    rw [h2]
    simp only []
    rw [h3]
    simp only []
    rw [h2]
    simp only []
    rw [h5]
    simp only []
    rw [h6]
    simp only []
    rw [h7]
    simp only []
    rw [h8]

/-- Witness for the amended C9: a one-hunk blob whose header has no
group-size field, and a raw header line with three fields parsing to
group-size 1. -/
theorem c9_group_witness :
    (∃ hd r1, parse_header wInput9 = POut.ok hd r1 ∧
      (("c").toList : Str) = hd.commit ∧ (1 : Nat) = hd.line_no ∧
      (1 : Nat) = max hd.group_size 1) ∧
    parse_header (("c").toList ++ [' '] ++ ("1").toList ++ [' '] ++ ("2").toList ++ ['\n'] ++ ([] : Str))
      = .ok { commit := ("c").toList, line_no := 2, group_size := 1 } [] := by
  constructor
  · exact c9_group_amended.1 [] [] wInput9
      { commit := ("c").toList, line_num := 1, code := [("x").toList], infoIdx := 0 }
      [(("c").toList, 0)] [{ author := ("a").toList, commit_time := 0, path := none }]
      [] (by rfl)
  · exact c9_group_amended.2 ("c").toList ("1").toList ("2").toList []
      (by decide) (by decide) (by decide) (by decide) (by decide) (by decide) (by decide)

theorem searchLoop_find (blame : List BlameHunk) (q : Str) (st : Option Nat) :
    ∀ l : List Nat, searchLoop blame q st l =
      (match l.find? (hunkMatches blame q) with
       | some i => some i
       | none => st) := by
  intro l
  induction l with
  | nil => rfl
  | cons i rest ih =>
    rw [searchLoop]
    by_cases hm : hunkMatches blame q i = true
    · rw [if_pos hm, List.find?_cons_of_pos _ hm]
    · rw [if_neg hm, ih, List.find?_cons_of_neg _ (by simpa using hm)]

/-- C5: `handle_search` scans the rendered code text (the last span) of each
entry for a literal substring match: a forward search visits the indices from
from_index + 1 (0 when unset) up to the end of the list in order and selects
the first match; a backward search visits from_index − 1 down to 0; there is
no wraparound, and when nothing in the scanned range matches the selection is
returned unchanged and no error arises. -/
theorem c5_search_theorem (blame : List BlameHunk) (q : Str) (st : Option Nat) :
    (handle_search blame q st true =
      (match (List.range' (match st with | some i => i + 1 | none => 0)
          (blame.length - (match st with | some i => i + 1 | none => 0))).find?
          (hunkMatches blame q) with
       | some i => some i
       | none => st)) ∧
    (handle_search blame q st false =
      (match ((List.range (st.getD 0)).reverse).find? (hunkMatches blame q) with
       | some i => some i
       | none => st)) :=
  ⟨searchLoop_find blame q st _, searchLoop_find blame q st _⟩

theorem usizeSub1_lt {n : Nat} (h : 0 < n) : usizeSub1 n < n := by
  unfold usizeSub1
  omega

/-- C2 counterexample: on an empty blame list with no selection, a
MoveSelection step selects index 0 instead of leaving the selection unset. -/
theorem c2_counterexample :
    emptyApp.blame = [] ∧ emptyApp.blame_state = none ∧
    (scroll emptyApp ts0 1).blame_state = some 0 :=
  ⟨rfl, rfl, rfl⟩

/-- C2 (amended): on a non-empty blame list with no panel open, MoveSelection
always produces a selection inside [0, N−1], and any movement selects index 0
when no selection existed; on the empty list, however, a movement with no
selection sets the selection to Some 0 (out of bounds) rather than leaving it
unset, and with a selection present the length-minus-one computation wraps. -/
theorem c2_selection_amended (app : App) (ts : Rect) (amount : Int)
    (hrp : app.right_panel = none) (hne : app.blame ≠ []) :
    ∃ i, (scroll app ts amount).blame_state = some i ∧ i < app.blame.length ∧
      (app.blame_state = none → i = 0) := by
  unfold scroll
  rw [hrp]
  cases hst : app.blame_state with
  | none =>
    refine ⟨0, rfl, ?_, fun _ => rfl⟩
    cases hb : app.blame with
    | nil => exact absurd hb hne
    | cons x xs => simp
  | some index =>
    refine ⟨min (satAddUsize index amount) (usizeSub1 app.blame.length), rfl, ?_, ?_⟩
    · have hlen : 0 < app.blame.length := List.length_pos.mpr hne
      have := usizeSub1_lt hlen
      omega
    · intro hcontra
      simp at hcontra

/-- Witness for the amended C2 at a concrete one-entry state. -/
theorem c2_selection_witness :
    ∃ i, (scroll baseApp ts0 5).blame_state = some i ∧ i < baseApp.blame.length ∧
      (baseApp.blame_state = none → i = 0) :=
  c2_selection_amended baseApp ts0 5 rfl (by decide)

/-- C1: undo re-blame with a single-entry checkpoint stack is a no-op; but on
a two-entry stack with a failing blame oracle, the handler pops the stack
BEFORE issuing the request, so the error return leaves the checkpoint stack
one entry shorter (blame list and selection unchanged) — contradicting the
claims that the whole view state is left equal to the prior state — and the
run loop then surfaces the error as a dismissable popup over that
already-mutated state. -/
theorem c1_undo_pops_before_blame :
    handle_input { code := .char 'B', ctrl := false } undoApp envFail ts0 =
      .err (("boom").toList) { undoApp with commit_stack := [cpA] } ∧
    run_app_step { code := .char 'B', ctrl := false } undoApp envFail ts0 =
      some (true, { undoApp with commit_stack := [cpA], popup := some [("boom").toList] }) ∧
    handle_input { code := .char 'B', ctrl := false } baseApp envFail ts0 = .ok true baseApp :=
  ⟨rfl, rfl, rfl⟩

theorem handle_input_browse (key : KeyEvent) (app : App) (env : Env) (ts : Rect)
    (hp : app.popup = none) (hs : app.search = none) (hl : app.line_number = none) :
    handle_input key app env ts = browse_dispatch key app env ts := by
  unfold handle_input
  rw [hp, hs, hl]
  exact rfl

theorem handle_input_committed (key : KeyEvent) (app : App) (env : Env) (ts : Rect) (q : Str)
    (hp : app.popup = none) (hs : app.search = some { editing := false, query := q }) :
    handle_input key app env ts = browse_dispatch key app env ts := by
  unfold handle_input
  rw [hp, hs]
  exact rfl

theorem browse_b (b : Bool) (app : App) (env : Env) (ts : Rect) :
    browse_dispatch { code := .char 'b', ctrl := b } app env ts =
      (match app.blame_state with
       | none => .ok true app
       | some index =>
         match app.blame.get? index with
         | none => .panic
         | some hunk =>
           match env.findCommit hunk.commit with
           | .error e => .err e app
           | .ok cmt =>
             match env.parentId cmt with
             | .error e => .err e app
             | .ok parent =>
               match (match hunk.path with
                      | some p => some p
                      | none => (app.commit_stack.getLast?).map
                          (fun (cp : CommitPath) => cp.path)) with
               | none => .panic
               | some line_path =>
                 match env.blame line_path parent with
                 | .error e => .err e app
                 | .ok newBlame =>
                   .ok true { app with
                     blame := newBlame,
                     blame_state := some (min index (usizeSub1 newBlame.length)),
                     commit_stack := app.commit_stack ++
                       [({ commit := parent, path := line_path } : CommitPath)] }) := rfl

theorem browse_n (b : Bool) (app : App) (env : Env) (ts : Rect) :
    browse_dispatch { code := .char 'n', ctrl := b } app env ts =
      (match app.search with
       | some s =>
         .ok true { app with blame_state := handle_search app.blame s.query app.blame_state true }
       | none => .ok true app) := rfl

theorem browse_N (b : Bool) (app : App) (env : Env) (ts : Rect) :
    browse_dispatch { code := .char 'N', ctrl := b } app env ts =
      (match app.search with
       | some s =>
         .ok true { app with blame_state := handle_search app.blame s.query app.blame_state false }
       | none => .ok true app) := rfl

/-- C6: with a selected hunk and every collaborator call succeeding (and a
non-empty resulting list), ReblameSelected re-blames at the parent of the
selected hunk commit, using the hunk historical path when present and
otherwise the checkpoint-stack top path (the hypothesis `hpath` is exactly
the source path resolution), replaces the blame list wholesale, clamps the
previous selection into the new bounds, and pushes exactly one (parent, path)
checkpoint so the stack grows by one; with no selection it is a no-op. -/
theorem c6_reblame_theorem (app : App) (env : Env) (ts : Rect) (index : Nat)
    (hunk : BlameHunk) (cmt parent : Oid) (path : PathT) (newBlame : List BlameHunk)
    (hp : app.popup = none) (hs : app.search = none) (hl : app.line_number = none)
    (hsel : app.blame_state = some index) (hh : app.blame.get? index = some hunk)
    (hfc : env.findCommit hunk.commit = .ok cmt) (hpar : env.parentId cmt = .ok parent)
    (hpath : (match hunk.path with
              | some p => some p
              | none => (app.commit_stack.getLast?).map
                  (fun (cp : CommitPath) => cp.path)) = some path)
    (hbl : env.blame path parent = .ok newBlame) (hne : newBlame ≠ [])
    (hsz : newBlame.length < 18446744073709551616) :
    (handle_input { code := .char 'b', ctrl := false } app env ts =
      .ok true { app with
        blame := newBlame,
        blame_state := some (min index (newBlame.length - 1)),
        commit_stack := app.commit_stack ++
          [({ commit := parent, path := path } : CommitPath)] }) ∧
    (∀ app2 : App, app2.popup = none → app2.search = none → app2.line_number = none →
      app2.blame_state = none →
      handle_input { code := .char 'b', ctrl := false } app2 env ts = .ok true app2) := by
  constructor
  · rw [handle_input_browse _ _ _ _ hp hs hl, browse_b]
    have husz : usizeSub1 newBlame.length = newBlame.length - 1 := by
      have hlen : 0 < newBlame.length := List.length_pos.mpr hne
      -- a Rust Vec length always fits a usize, hypothesis hsz
      unfold usizeSub1
      omega
    simp only [hsel, hh, hfc, hpar, hpath, hbl, husz]
  · intro app2 hp2 hs2 hl2 hsel2
    rw [handle_input_browse _ _ _ _ hp2 hs2 hl2, browse_b]
    rw [hsel2]

/-- Witness for C6: a concrete three-entry state whose last entry is
re-blamed via oracles returning a two-entry list. -/
theorem c6_reblame_witness :
    (handle_input { code := .char 'b', ctrl := false } reblameApp envOkRe ts0 =
      .ok true { reblameApp with
        blame := [sampleHunk, sampleHunk],
        blame_state := some (min 2 ([sampleHunk, sampleHunk].length - 1)),
        commit_stack := reblameApp.commit_stack ++
          [({ commit := ("par").toList, path := ("p0").toList } : CommitPath)] }) ∧
    (∀ app2 : App, app2.popup = none → app2.search = none → app2.line_number = none →
      app2.blame_state = none →
      handle_input { code := .char 'b', ctrl := false } app2 envOkRe ts0 = .ok true app2) :=
  c6_reblame_theorem reblameApp envOkRe ts0 2 sampleHunk (("c1").toList) (("par").toList)
    (("p0").toList) [sampleHunk, sampleHunk] rfl rfl rfl rfl (by rfl) (by rfl) (by rfl)
    (by rfl) (by rfl) (by decide) (by decide)

/-- C8: committing a search with Enter stores the query in a non-editing
Search — the query persists after search entry exits — and immediately runs a
forward search; RepeatSearch re-runs the held query from the current
selection in either direction; with no held query, RepeatSearch is a no-op. -/
theorem c8_repeat_search_theorem (app : App) (env : Env) (ts : Rect) (q : Str)
    (hp : app.popup = none) :
    (app.search = some { editing := true, query := q } →
      handle_input { code := .enter, ctrl := false } app env ts =
        .ok true { app with
          search := some { editing := false, query := q },
          blame_state := handle_search app.blame q app.blame_state true }) ∧
    (app.search = some { editing := false, query := q } →
      handle_input { code := .char 'n', ctrl := false } app env ts =
        .ok true { app with blame_state := handle_search app.blame q app.blame_state true } ∧
      handle_input { code := .char 'N', ctrl := false } app env ts =
        .ok true { app with blame_state := handle_search app.blame q app.blame_state false }) ∧
    (app.search = none → app.line_number = none →
      handle_input { code := .char 'n', ctrl := false } app env ts = .ok true app ∧
      handle_input { code := .char 'N', ctrl := false } app env ts = .ok true app) := by
  refine ⟨?_, ?_, ?_⟩
  · intro hsearch
    unfold handle_input
    rw [hp, hsearch]
    exact rfl
  · intro hsearch
    constructor
    · rw [handle_input_committed _ _ _ _ q hp hsearch, browse_n, hsearch]
    · rw [handle_input_committed _ _ _ _ q hp hsearch, browse_N, hsearch]
  · intro hsearch hl
    constructor
    · rw [handle_input_browse _ _ _ _ hp hsearch hl, browse_n, hsearch]
    · rw [handle_input_browse _ _ _ _ hp hsearch hl, browse_N, hsearch]

/-- Witness for C8: committing the query "abc" from the concrete search-entry
state, then repeating it from the committed state. -/
theorem c8_repeat_search_witness :
    handle_input { code := .enter, ctrl := false } searchApp envFail ts0 =
      .ok true { searchApp with
        search := some { editing := false, query := ("abc").toList },
        blame_state := handle_search searchApp.blame (("abc").toList)
          searchApp.blame_state true } ∧
    handle_input { code := .char 'n', ctrl := false }
        { baseApp with search := some { editing := false, query := ("abc").toList } } envFail ts0 =
      .ok true { baseApp with
        search := some { editing := false, query := ("abc").toList },
        blame_state := handle_search baseApp.blame (("abc").toList) baseApp.blame_state true } :=
  ⟨(c8_repeat_search_theorem searchApp envFail ts0 (("abc").toList) rfl).1 rfl,
   ((c8_repeat_search_theorem
      { baseApp with search := some { editing := false, query := ("abc").toList } }
      envFail ts0 (("abc").toList) rfl).2.1 rfl).1⟩

/-- C10 counterexample: while a committed search is held, the line-jump entry
branch is unreachable (the source attaches it as an else-if of the search
check), so with a line-jump buffer present a digit key appends nothing — the
whole state is unchanged — where the claim says the digit is inserted. -/
theorem c10_counterexample :
    shadowApp.line_number = some [] ∧
    shadowApp.search = some { editing := false, query := ("q").toList } ∧
    handle_input { code := .char '5', ctrl := false } shadowApp envFail ts0 =
      .ok true shadowApp :=
  ⟨rfl, rfl, rfl⟩

/-- C10 (amended): provided no committed search query is held (app.search =
None), line-jump entry behaves as claimed: a plain character key appends the
character to the buffer exactly when it is a decimal digit and is otherwise
ignored; Enter with a buffer parsing to n on a non-empty list of length len
selects min(max(n,1),len) − 1 and leaves entry mode; Enter with an empty or
unparsable buffer changes nothing and stays in entry mode.  (When a committed
search exists the line-jump branch is unreachable and keys fall through to
the browsing dispatch.) -/
theorem c10_line_jump_amended (app : App) (env : Env) (ts : Rect) (buf : Str)
    (hp : app.popup = none) (hs : app.search = none) (hl : app.line_number = some buf) :
    (∀ c : Char, handle_input { code := .char c, ctrl := false } app env ts =
       .ok true (if '0' ≤ c ∧ c ≤ '9'
         then { app with line_number := some (buf ++ [c]) } else app)) ∧
    (∀ n : Nat, parseUsize buf = some n → app.blame ≠ [] →
       handle_input { code := .enter, ctrl := false } app env ts =
         .ok true { app with
           blame_state := some (min (max n 1) app.blame.length - 1),
           line_number := none }) ∧
    (parseUsize buf = none →
       handle_input { code := .enter, ctrl := false } app env ts = .ok true app) := by
  refine ⟨?_, ?_, ?_⟩
  · intro c
    unfold handle_input
    rw [hp, hs, hl]
    by_cases hd : ('0' ≤ c ∧ c ≤ '9')
    · simp [hd]
    · simp [hd]
  · intro n hn hne
    unfold handle_input
    rw [hp, hs, hl]
    have hlen : ¬(app.blame.length = 0) := by
      simpa [List.length_eq_zero] using hne
    simp [hn, hlen]
  · intro hn
    unfold handle_input
    rw [hp, hs, hl]
    simp [hn]

/-- Witness for the amended C10 at a concrete three-entry state with buffer
"7": digits append, Enter selects line 7 clamped to the last entry. -/
theorem c10_line_jump_witness :
    (handle_input { code := .char '3', ctrl := false } jumpApp envFail ts0 =
      .ok true (if '0' ≤ '3' ∧ '3' ≤ '9'
        then { jumpApp with line_number := some ([('7')] ++ ['3']) } else jumpApp)) ∧
    (handle_input { code := .enter, ctrl := false } jumpApp envFail ts0 =
      .ok true { jumpApp with
        blame_state := some (min (max 7 1) jumpApp.blame.length - 1),
        line_number := none }) :=
  ⟨(c10_line_jump_amended jumpApp envFail ts0 [('7')] rfl rfl rfl).1 '3',
   (c10_line_jump_amended jumpApp envFail ts0 [('7')] rfl rfl rfl).2.1 7 (by rfl) (by decide)⟩
